import Mathlib

/-!
# Verification of the pie_top refresh-and-merge engine

A shallow embedding of `src/main.rs` of the `pie_top` repository
(a Trading212 "pie" portfolio dashboard), together with proofs about it.

Modelling conventions:
* Rust `f64` fields are modelled as `ℚ` where only copying/summing/comparison
  matters, and as `ℝ` for the one transcendental computation
  (`calculate_annual_rate`, which uses `powf`).
* `HashMap<usize, Pie>` is modelled as an association list `Store` with
  replace-on-insert semantics; iteration order is never relied on for
  set-level statements.
* Network calls are modelled by explicit inputs: the `listPies` HTTP response
  is passed in as a status code plus body, and the per-pie metadata endpoint
  (`get_pie_details`) as an oracle `Nat → Option (ℚ × String)` (`none` models
  a failed detail fetch).
* `serde_json`'s text-to-JSON-value tokenizer is external library code; it is
  abstracted as a parameter `decode : String → Option Json`.  The shape
  dispatch performed by this repository's code (array / flattened map /
  direct map, in that order) is modelled explicitly over a `Json` value type.
-/

/-- Embeds Rust `struct DividendDetails` (main.rs lines 32–39). -/
structure DividendDetails where
  gained : ℚ
  reinvested : ℚ
  in_cash : ℚ
deriving DecidableEq

/-- Embeds Rust `struct ResultDetails` (main.rs lines 41–52). -/
structure ResultDetails where
  price_avg_invested_value : ℚ
  price_avg_value : ℚ
  price_avg_result : ℚ
  price_avg_result_coef : ℚ
deriving DecidableEq

/-- Embeds Rust `struct Pie` (main.rs lines 18–30).  `created_at` and `name`
are `Option` in the source (the enrichment fields). -/
structure Pie where
  id : ℕ
  cash : ℚ
  dividend_details : DividendDetails
  result : ResultDetails
  progress : Option ℚ
  status : Option String
  created_at : Option ℚ
  name : Option String
deriving DecidableEq

/-- The pie store `HashMap<usize, Pie>` (main.rs line 95), modelled as an
association list from id to record. -/
def Store : Type := List (ℕ × Pie)

instance : DecidableEq Store := by
  unfold Store
  infer_instance

/-- Empty store, as created at startup (main.rs line 619). -/
def emptyStore : Store := []

/-- `HashMap::get` / lookup by id. -/
def lookupStore : Store → ℕ → Option Pie
  | [], _ => none
  | (k, v) :: rest, i => if k = i then some v else lookupStore rest i

/-- `HashMap::insert`: replace the value at an existing key, else append. -/
def insertStore : Store → ℕ → Pie → Store
  | [], i, p => [(i, p)]
  | (k, v) :: rest, i, p =>
      if k = i then (i, p) :: rest else (k, v) :: insertStore rest i p

/-- The `p.entry(pie.id as usize).or_insert(pie.clone())` step of the merge
loop (main.rs line 719): if the id is unknown, the raw pie is inserted
verbatim; if known, the store is unchanged. -/
def upsert (store : Store) (pie : Pie) : Store :=
  match lookupStore store pie.id with
  | some _ => store
  | none => insertStore store pie.id pie

/-- The spec's `needsEnrichment(id)`: true iff the record exists and at
least one enrichment field is unset (the condition at main.rs line 720). -/
def needsEnrichment (store : Store) (i : ℕ) : Bool :=
  match lookupStore store i with
  | some p => p.created_at.isNone || p.name.isNone
  | none => false

/-- One iteration of the merge loop in `fetch_pies` (main.rs lines 716–732):
lock, `entry().or_insert`, conditional enrichment via `get_pie_details`
(modelled by `oracle`), then `p.result = pie.result.clone()`. -/
def reconcileStep (oracle : ℕ → Option (ℚ × String)) (store : Store)
    (pie : Pie) : Store :=
  let s1 := upsert store pie
  let p0 := (lookupStore s1 pie.id).getD pie
  let p1 :=
    if p0.created_at.isNone || p0.name.isNone then
      match oracle pie.id with
      | some (cd, nm) =>
          { p0 with
            created_at := if p0.created_at.isNone then some cd else p0.created_at,
            name := if p0.name.isNone then some nm else p0.name }
      | none => p0
    else p0
  let p2 := { p1 with result := pie.result }
  insertStore s1 pie.id p2

/-- The whole merge loop `for pie in pies_v { ... }` (main.rs lines 716–732). -/
def reconcileAll (oracle : ℕ → Option (ℚ × String)) (store : Store)
    (pies : List Pie) : Store :=
  pies.foldl (reconcileStep oracle) store

/-! ## JSON value model and the serde-derived parsers -/

/-- A JSON value.  Numbers are modelled as exact rationals (the usual
idealisation of `f64`); the distinction between integer and float tokens is
not retained. -/
inductive Json where
  | null
  | bool (b : Bool)
  | num (q : ℚ)
  | str (s : String)
  | arr (elems : List Json)
  | obj (fields : List (String × Json))

/-- First field of an object with the given key (serde's field dispatch). -/
def jGet : List (String × Json) → String → Option Json
  | [], _ => none
  | (k, v) :: rest, key => if k = key then some v else jGet rest key

/-- serde `f64` from a JSON value: any number. -/
def asNum : Json → Option ℚ
  | .num q => some q
  | _ => none

/-- serde `String` from a JSON value. -/
def asStr : Json → Option String
  | .str s => some s
  | _ => none

/-- serde `u64` from a JSON value: a non-negative integer below `2^64`. -/
def asU64 : Json → Option ℕ
  | .num q =>
      if q.den = 1 ∧ 0 ≤ q.num ∧ q.num < 18446744073709551616 then
        some q.num.toNat
      else none
  | _ => none

/-- serde `Option<f64>` field: a missing field or `null` is `none`; a number
is `some`; anything else is a parse error. -/
def asOptNum : Option Json → Option (Option ℚ)
  | none => some none
  | some .null => some none
  | some (.num q) => some (some q)
  | some _ => none

/-- serde `Option<String>` field: as `asOptNum` but for strings. -/
def asOptStr : Option Json → Option (Option String)
  | none => some none
  | some .null => some none
  | some (.str s) => some (some s)
  | some _ => none

/-- serde-derived parse of `DividendDetails` (field `inCash` is renamed). -/
def parseDividend (j : Json) : Option DividendDetails :=
  match j with
  | .obj fs => do
      let g ← jGet fs "gained" >>= asNum
      let r ← jGet fs "reinvested" >>= asNum
      let c ← jGet fs "inCash" >>= asNum
      pure ⟨g, r, c⟩
  | _ => none

/-- serde-derived parse of `ResultDetails` (all four fields renamed to
camelCase on the wire). -/
def parseResult (j : Json) : Option ResultDetails :=
  match j with
  | .obj fs => do
      let iv ← jGet fs "priceAvgInvestedValue" >>= asNum
      let v ← jGet fs "priceAvgValue" >>= asNum
      let r ← jGet fs "priceAvgResult" >>= asNum
      let c ← jGet fs "priceAvgResultCoef" >>= asNum
      pure ⟨iv, v, r, c⟩
  | _ => none

/-- serde-derived parse of `Pie` (main.rs lines 18–30): required fields `id`,
`cash`, `dividendDetails`, `result`; optional fields `progress`, `status`,
`created_at`, `name` default to `none` when absent.  Unknown fields are
ignored (serde's default). -/
def parsePie (j : Json) : Option Pie :=
  match j with
  | .obj fs => do
      let i ← jGet fs "id" >>= asU64
      let cash ← jGet fs "cash" >>= asNum
      let dd ← jGet fs "dividendDetails" >>= parseDividend
      let res ← jGet fs "result" >>= parseResult
      let prog ← asOptNum (jGet fs "progress")
      let st ← asOptStr (jGet fs "status")
      let ca ← asOptNum (jGet fs "created_at")
      let nm ← asOptStr (jGet fs "name")
      pure ⟨i, cash, dd, res, prog, st, ca, nm⟩
  | _ => none

/-- Parse every element of a JSON array as a pie (serde `Vec<Pie>` body). -/
def parsePieList : List Json → Option (List Pie)
  | [] => some []
  | j :: rest => do
      let p ← parsePie j
      let ps ← parsePieList rest
      pure (p :: ps)

/-- First parse attempt of `fetch_pies` (main.rs line 691):
`serde_json::from_str::<Vec<Pie>>` — succeeds only on the array shape. -/
def parsePieArray : Json → Option (List Pie)
  | .arr xs => parsePieList xs
  | _ => none

/-- Parse each value of a JSON object's fields as a pie, keeping keys. -/
def parsePiePairs : List (String × Json) → Option (List (String × Pie))
  | [] => some []
  | (k, j) :: rest => do
      let p ← parsePie j
      let ps ← parsePiePairs rest
      pure ((k, p) :: ps)

/-- `HashMap::insert` on a string-keyed association list (replace or append);
duplicate JSON keys resolve last-wins, as serde's `HashMap` visitor does. -/
def hmInsert : List (String × Pie) → String → Pie → List (String × Pie)
  | [], k, p => [(k, p)]
  | (k0, v) :: rest, k, p =>
      if k0 = k then (k, p) :: rest else (k0, v) :: hmInsert rest k p

/-- Build the `HashMap<String, Pie>` from parsed fields, in order. -/
def buildMap (l : List (String × Pie)) : List (String × Pie) :=
  l.foldl (fun acc kp => hmInsert acc kp.1 kp.2) []

/-- Third parse attempt of `fetch_pies` (main.rs line 705):
`serde_json::from_str::<HashMap<String, Pie>>` — succeeds only on an object
shape each of whose values parses as a pie. -/
def parseStringPieMap : Json → Option (List (String × Pie))
  | .obj fs => (parsePiePairs fs).map buildMap
  | _ => none

/-- Second parse attempt of `fetch_pies` (main.rs lines 695–702):
`PiesResponse { #[serde(flatten)] pies: HashMap<String, Pie> }`.  A flattened
`HashMap` captures every field of the object, so it accepts exactly the same
object shapes as the direct map parse. -/
def parsePiesFlatten : Json → Option (List (String × Pie)) :=
  parseStringPieMap

/-- `HashMap::into_values().collect()` (main.rs lines 702 and 706). -/
def intoValues (m : List (String × Pie)) : List Pie :=
  m.map Prod.snd

/-- The three-shape fallback chain of `fetch_pies` (main.rs lines 690–714):
array first, then flattened map, then direct map; `none` when all fail. -/
def parsePies (j : Json) : Option (List Pie) :=
  match parsePieArray j with
  | some v => some v
  | none =>
      match parsePiesFlatten j with
      | some m => some (intoValues m)
      | none =>
          match parseStringPieMap j with
          | some m => some (intoValues m)
          | none => none

/-! ## The `fetch_pies` pipeline -/

/-- Whether `pat` occurs at the head of `l`. -/
def hasPrefixC : List Char → List Char → Bool
  | [], _ => true
  | _ :: _, [] => false
  | p :: ps, c :: cs => p = c && hasPrefixC ps cs

/-- Whether `pat` occurs anywhere in `l` (contiguously). -/
def hasInfixC (pat : List Char) : List Char → Bool
  | [] => hasPrefixC pat []
  | c :: cs => hasPrefixC pat (c :: cs) || hasInfixC pat cs

/-- Rust `str::contains` with a string pattern: substring test. -/
def strContains (s pat : String) : Bool :=
  hasInfixC pat.data s.data

/-- `reqwest::StatusCode::is_success()`: a 2xx status. -/
def statusIsSuccess (code : ℕ) : Bool :=
  200 ≤ code && code < 300

/-- The business-error sniff of `fetch_pies` (main.rs line 686): the body
text contains `"BusinessException"` or `"error"`. -/
def looksLikeBusinessError (body : String) : Bool :=
  strContains body "BusinessException" || strContains body "error"

/-- Embeds `fetch_pies` (main.rs lines 660–734) given the `listPies` HTTP
response (`status`, `body`), the JSON tokenizer `decode` (serde_json,
abstracted), the `get_pie_details` oracle, and the prior store.  Returns the
new store on `Ok` and the error message on `Err`.
* non-2xx status: 429 is `Ok` with the store untouched (main.rs lines
  672–675); any other failure status is `Err` (line 679);
* 2xx body containing a business-error marker: `Err` (lines 686–688);
* otherwise the three-shape parse chain; if even the tokenizer rejects the
  body, every attempt fails and `Err` is returned (lines 707–711);
* on a successful parse, the merge loop runs (lines 716–732). -/
def fetch_pies (decode : String → Option Json)
    (oracle : ℕ → Option (ℚ × String))
    (status : ℕ) (body : String) (store : Store) : Except String Store :=
  if ¬ statusIsSuccess status then
    if status = 429 then Except.ok store
    else Except.error ("HTTP Error: " ++ toString status ++ " - " ++ body)
  else if looksLikeBusinessError body then
    Except.error ("API Business Error: " ++ body)
  else
    match decode body with
    | none => Except.error "Failed to parse JSON as any expected format"
    | some j =>
        match parsePies j with
        | some pies_v => Except.ok (reconcileAll oracle store pies_v)
        | none => Except.error "Failed to parse JSON as any expected format"

/-! ## Startup load (`load_map` and `main`) -/

/-- Outcome of `load_map` (main.rs lines 605–611): an I/O error (missing /
unreadable file) is returned as `Err`; a file that reads but whose contents
fail `serde_json::from_str` hits the `.unwrap()` on line 609 and panics. -/
inductive LoadOutcome where
  | ioError
  | panicked
  | ok (m : Store)
deriving DecidableEq

/-- Embeds `load_map` (main.rs lines 605–611).  `file` is `none` when the
file is missing/unreadable and `some data` otherwise; `decodeStore` is
serde_json's deserialisation of `HashMap<usize, Pie>`, abstracted. -/
def load_map (decodeStore : String → Option Store)
    (file : Option String) : LoadOutcome :=
  match file with
  | none => LoadOutcome.ioError
  | some data =>
      match decodeStore data with
      | none => LoadOutcome.panicked
      | some m => LoadOutcome.ok m

/-- Embeds the startup load in `main` (main.rs lines 619–624): the store
starts empty, `if let Ok(loaded) = load_map(..)` replaces it on success and
ignores an `Err`; a panic inside `load_map` aborts startup (`none`). -/
def startupStore (decodeStore : String → Option Store)
    (file : Option String) : Option Store :=
  match load_map decodeStore file with
  | LoadOutcome.ok m => some m
  | LoadOutcome.ioError => some emptyStore
  | LoadOutcome.panicked => none

/-! ## Derived metrics -/

/-- Embeds the totals computation of `PieTopApp::update` (main.rs lines
249–255): sums of invested and current values over the record sequence, and
the total-return percentage with a zero guard. -/
def aggregateTotals (records : List Pie) : ℚ × ℚ × ℚ :=
  let total_initial := (records.map fun p => p.result.price_avg_invested_value).sum
  let total_now := (records.map fun p => p.result.price_avg_value).sum
  let total_result_percent :=
    if total_initial ≠ 0 then (total_now - total_initial) / total_initial * 100
    else 0
  (total_initial, total_now, total_result_percent)

/-- Embeds `calculate_annual_rate` (main.rs lines 747–760) over exact reals
(`powf` becomes real exponentiation `rpow`).  The system-clock read on line
755 is passed in as the parameter `now`. -/
noncomputable def calculate_annual_rate
    (initial_value final_value create_date now : ℝ) : ℝ :=
  if initial_value ≤ 0 ∨ create_date ≤ 0 then 0
  else if now ≤ create_date then 0
  else ((final_value / initial_value) ^ ((365 : ℝ) * 86400 / (now - create_date)) - 1) * 100

/-! ## Lock/network event traces of a refresh cycle -/

/-- Events of one `fetch_pies` cycle that matter for the locking discipline:
acquiring/releasing the store mutex, the `listPies` network call, and a
`get_pie_details` network call for a pie id. -/
inductive Ev where
  | lock
  | unlock
  | netList
  | netMeta (id : ℕ)
deriving DecidableEq

/-- Events of one iteration of the merge loop (main.rs lines 716–732): the
mutex is locked (line 718), `get_pie_details` is awaited while the guard is
held whenever an enrichment field is missing (line 722), and the guard drops
at the end of the iteration. -/
def stepTrace (store : Store) (pie : Pie) : List Ev :=
  let s1 := upsert store pie
  let p0 := (lookupStore s1 pie.id).getD pie
  [Ev.lock] ++
    (if p0.created_at.isNone || p0.name.isNone then [Ev.netMeta pie.id] else []) ++
    [Ev.unlock]

/-- Event trace of the merge loop over a pie list, threading the store. -/
def loopTrace (oracle : ℕ → Option (ℚ × String)) :
    Store → List Pie → List Ev
  | _, [] => []
  | store, pie :: rest =>
      stepTrace store pie ++ loopTrace oracle (reconcileStep oracle store pie) rest

/-- Event trace of one whole refresh cycle: the `listPies` call (main.rs
lines 663–667, before any lock), then the merge loop. -/
def cycleTrace (oracle : ℕ → Option (ℚ × String)) (store : Store)
    (pies : List Pie) : List Ev :=
  Ev.netList :: loopTrace oracle store pies

/-- The spec's locking discipline: scanning the trace with a lock-held flag,
no network event occurs while the lock is held. -/
def netOutsideLock : List Ev → Bool → Bool
  | [], _ => true
  | Ev.lock :: rest, _ => netOutsideLock rest true
  | Ev.unlock :: rest, _ => netOutsideLock rest false
  | Ev.netList :: rest, locked => !locked && netOutsideLock rest locked
  | Ev.netMeta _ :: rest, locked => !locked && netOutsideLock rest locked

/-- What the code actually does: the `listPies` call occurs while unlocked,
but every `get_pie_details` call occurs while the lock is held. -/
def listOutsideMetaInside : List Ev → Bool → Bool
  | [], _ => true
  | Ev.lock :: rest, _ => listOutsideMetaInside rest true
  | Ev.unlock :: rest, _ => listOutsideMetaInside rest false
  | Ev.netList :: rest, locked => !locked && listOutsideMetaInside rest locked
  | Ev.netMeta _ :: rest, locked => locked && listOutsideMetaInside rest locked

/-! ## Concrete fixtures used by witnesses and counterexamples -/

/-- A zero dividend triple. -/
def dd0 : DividendDetails := ⟨0, 0, 0⟩

/-- A zero result quadruple. -/
def res0 : ResultDetails := ⟨0, 0, 0, 0⟩

/-- A non-zero result quadruple. -/
def resRaw : ResultDetails := ⟨100, 150, 50, 2⟩

/-- A stored record with both enrichment fields set and zero live fields. -/
def oldPie1 : Pie := ⟨1, 0, dd0, res0, none, none, some 3, some "old"⟩

/-- A freshly fetched raw pie with id 1, non-zero live fields and no
enrichment data. -/
def rawPie1 : Pie := ⟨1, 5, ⟨7, 8, 9⟩, resRaw, some 1, some "Active", none, none⟩

/-- A raw pie that already carries enrichment data (a listPies body may
include `created_at` / `name` keys, which serde deserialises into the
`Option` fields). -/
def rawPieMeta : Pie := ⟨1, 5, dd0, resRaw, none, none, some 7, some "n"⟩

/-- A detail oracle modelling `get_pie_details` failing every time. -/
def noOracle : ℕ → Option (ℚ × String) := fun _ => none

/-- A store holding only `oldPie1`. -/
def store1 : Store := [(1, oldPie1)]

/-- A tokenizer modelling serde_json rejecting the text (not valid JSON). -/
def decodeNone : String → Option Json := fun _ => none

/-- A tokenizer that reads every text as the empty JSON array (a valid pie
list). -/
def decodeArrEmpty : String → Option Json := fun _ => some (Json.arr [])

/-- A store deserialiser modelling serde_json rejecting the text. -/
def noStoreDecode : String → Option Store := fun _ => none

/-- A minimal JSON pie object as `listPies` would return it (no enrichment
keys). -/
def pieJson1 : Json :=
  Json.obj
    [("id", Json.num 1), ("cash", Json.num 5),
     ("dividendDetails",
       Json.obj [("gained", Json.num 7), ("reinvested", Json.num 8),
                 ("inCash", Json.num 9)]),
     ("result",
       Json.obj [("priceAvgInvestedValue", Json.num 100),
                 ("priceAvgValue", Json.num 150),
                 ("priceAvgResult", Json.num 50),
                 ("priceAvgResultCoef", Json.num 2)])]

/-- The record `pieJson1` parses to. -/
def pie1 : Pie := ⟨1, 5, ⟨7, 8, 9⟩, resRaw, none, none, none, none⟩

/-- Several refresh cycles in sequence, each with its own pie list and its
own detail oracle (the remote may answer differently every cycle). -/
def runCycles (cycles : List ((ℕ → Option (ℚ × String)) × List Pie))
    (store : Store) : Store :=
  cycles.foldl (fun s cy => reconcileAll cy.1 s cy.2) store

/-! ## Store lemmas -/

theorem lookup_insert_self (s : Store) (i : ℕ) (p : Pie) :
    lookupStore (insertStore s i p) i = some p := by
  induction s with
  | nil => simp [insertStore, lookupStore]
  | cons kv rest ih =>
      obtain ⟨k, v⟩ := kv
      by_cases h : k = i
      · simp [insertStore, lookupStore, h]
      · simp [insertStore, lookupStore, h, ih]

theorem lookup_insert_ne (s : Store) (i j : ℕ) (p : Pie) (h : i ≠ j) :
    lookupStore (insertStore s i p) j = lookupStore s j := by
  induction s with
  | nil => simp [insertStore, lookupStore, h]
  | cons kv rest ih =>
      obtain ⟨k, v⟩ := kv
      by_cases hk : k = i
      · subst hk
        simp [insertStore, lookupStore, h]
      · by_cases hkj : k = j <;>
          simp [insertStore, lookupStore, hk, hkj, Ne.symm h, ih]

theorem upsert_known (store : Store) (pie old : Pie)
    (h : lookupStore store pie.id = some old) : upsert store pie = store := by
  unfold upsert
  rw [h]

theorem reconcileStep_lookup_ne (oracle : ℕ → Option (ℚ × String))
    (store : Store) (pie : Pie) (i : ℕ) (hpi : pie.id ≠ i) :
    lookupStore (reconcileStep oracle store pie) i = lookupStore store i := by
  simp only [reconcileStep]
  rw [lookup_insert_ne _ _ _ _ hpi]
  unfold upsert
  cases hu : lookupStore store pie.id with
  | none => rw [lookup_insert_ne _ _ _ _ hpi]
  | some q => rfl

/-! ## C1 — live-field overwrite on reconciliation -/

/-- C1 counterexample.  The claim says a successful reconciliation of a raw
pie with a known id overwrites all live fields (cash, dividend triple,
result quadruple, progress, status).  At this concrete input the store holds
`oldPie1` under id 1 and the raw pie `rawPie1` differs on every live field:
after the merge-loop iteration, cash, dividend, progress and status still
hold the OLD values (the code only assigns `p.result`), refuting the claim. -/
theorem c1_live_fields_counterexample :
    (lookupStore (reconcileStep noOracle store1 rawPie1) 1).map Pie.cash ≠
      some rawPie1.cash ∧
    (lookupStore (reconcileStep noOracle store1 rawPie1) 1).map
        Pie.dividend_details ≠ some rawPie1.dividend_details ∧
    (lookupStore (reconcileStep noOracle store1 rawPie1) 1).map Pie.progress ≠
      some rawPie1.progress ∧
    (lookupStore (reconcileStep noOracle store1 rawPie1) 1).map Pie.status ≠
      some rawPie1.status ∧
    (lookupStore (reconcileStep noOracle store1 rawPie1) 1).map Pie.result =
      some rawPie1.result := by
  decide

/-- C1 (amended): for every pie id already present in the store, a
successful reconciliation of a raw pie with that id overwrites only the
result quadruple with the newly fetched value; cash, the dividend triple,
progress and status keep the values the record already had. -/
theorem c1_live_fields (oracle : ℕ → Option (ℚ × String))
    (store : Store) (pie old : Pie)
    (h : lookupStore store pie.id = some old) :
    ∃ r, lookupStore (reconcileStep oracle store pie) pie.id = some r ∧
      r.result = pie.result ∧ r.cash = old.cash ∧
      r.dividend_details = old.dividend_details ∧
      r.progress = old.progress ∧ r.status = old.status := by
  simp only [reconcileStep, upsert_known store pie old h, h, Option.getD_some]
  refine ⟨_, lookup_insert_self _ _ _, ?_⟩
  split
  · cases h2 : oracle pie.id with
    | none => simp
    | some pr => obtain ⟨cd, nm⟩ := pr; simp
  · simp

/-- Witness for `c1_live_fields` at a concrete known id. -/
theorem c1_live_fields_witness :
    ∃ r, lookupStore (reconcileStep noOracle store1 rawPie1) rawPie1.id = some r ∧
      r.result = rawPie1.result ∧ r.cash = oldPie1.cash ∧
      r.dividend_details = oldPie1.dividend_details ∧
      r.progress = oldPie1.progress ∧ r.status = oldPie1.status :=
  c1_live_fields noOracle store1 rawPie1 oldPie1 (by decide)

/-! ## C2 — enrichment fields are immutable once set -/

theorem enrichment_kept_by_step (oracle : ℕ → Option (ℚ × String))
    (store : Store) (pie : Pie) (i : ℕ) (c : ℚ) (n : String) (old : Pie)
    (h : lookupStore store i = some old)
    (hc : old.created_at = some c) (hn : old.name = some n) :
    ∃ r, lookupStore (reconcileStep oracle store pie) i = some r ∧
      r.created_at = some c ∧ r.name = some n := by
  by_cases hpi : pie.id = i
  · subst hpi
    simp only [reconcileStep, upsert_known store pie old h, h, Option.getD_some]
    refine ⟨_, lookup_insert_self _ _ _, ?_⟩
    simp [hc, hn]
  · rw [reconcileStep_lookup_ne oracle store pie i hpi, h]
    exact ⟨old, rfl, hc, hn⟩

theorem enrichment_kept_by_cycle (oracle : ℕ → Option (ℚ × String))
    (pies : List Pie) (i : ℕ) (c : ℚ) (n : String) :
    ∀ (store : Store) (old : Pie),
      lookupStore store i = some old →
      old.created_at = some c → old.name = some n →
      ∃ r, lookupStore (reconcileAll oracle store pies) i = some r ∧
        r.created_at = some c ∧ r.name = some n := by
  induction pies with
  | nil => exact fun store old h hc hn => ⟨old, h, hc, hn⟩
  | cons pie rest ih =>
      intro store old h hc hn
      obtain ⟨r1, hr1, hc1, hn1⟩ :=
        enrichment_kept_by_step oracle store pie i c n old h hc hn
      exact ih (reconcileStep oracle store pie) r1 hr1 hc1 hn1

/-- C2: a record whose enrichment fields (`created_at`, `name`) are both set
— no matter how they were set, including a restore from disk — keeps exactly
those values across any number of later reconciliation cycles, each with an
arbitrary pie list and an arbitrary detail-fetch oracle (so regardless of
what the remote would have returned). -/
theorem c2_enrichment_immutable
    (cycles : List ((ℕ → Option (ℚ × String)) × List Pie))
    (i : ℕ) (c : ℚ) (n : String) :
    ∀ (store : Store) (old : Pie),
      lookupStore store i = some old →
      old.created_at = some c → old.name = some n →
      ∃ r, lookupStore (runCycles cycles store) i = some r ∧
        r.created_at = some c ∧ r.name = some n := by
  induction cycles with
  | nil => exact fun store old h hc hn => ⟨old, h, hc, hn⟩
  | cons cy rest ih =>
      intro store old h hc hn
      obtain ⟨r1, hr1, hc1, hn1⟩ :=
        enrichment_kept_by_cycle cy.1 cy.2 i c n store old h hc hn
      exact ih (reconcileAll cy.1 store cy.2) r1 hr1 hc1 hn1

/-- Witness for `c2_enrichment_immutable`: two later cycles over `store1`,
one of which re-fetches id 1 with an oracle that would return different
enrichment values; `oldPie1`'s values survive. -/
theorem c2_enrichment_immutable_witness :
    ∃ r,
      lookupStore
        (runCycles [(noOracle, [rawPie1]), (fun _ => some (99, "new"), [rawPie1])]
          store1) 1 = some r ∧
      r.created_at = some 3 ∧ r.name = some "old" :=
  c2_enrichment_immutable
    [(noOracle, [rawPie1]), (fun _ => some (99, "new"), [rawPie1])]
    1 3 "old" store1 oldPie1 (by decide) (by decide) (by decide)

/-! ## C8 — insertion of an unknown id -/

/-- C8 counterexample.  The claim says a raw pie with an unknown id is
inserted with both enrichment fields unset and `needsEnrichment` true at the
moment of insertion.  But the code inserts the raw pie verbatim
(`or_insert(pie.clone())`), so a raw pie that already carries `created_at`
and `name` — which the serde-derived `Pie` parser accepts from a listPies
body — is inserted with both fields SET and `needsEnrichment` false. -/
theorem c8_insert_counterexample :
    lookupStore emptyStore 1 = none ∧
    lookupStore (upsert emptyStore rawPieMeta) 1 = some rawPieMeta ∧
    rawPieMeta.created_at = some 7 ∧ rawPieMeta.name = some "n" ∧
    needsEnrichment (upsert emptyStore rawPieMeta) 1 = false := by
  decide

/-- C8 (amended): a raw pie with an unknown id is inserted verbatim, so its
enrichment fields after insertion are exactly the raw pie's; in particular
`needsEnrichment` is true at the moment of insertion iff at least one of the
raw pie's enrichment fields is unset (which is always the case for a pie
parsed from a listPies body that omits the `created_at`/`name` keys). -/
theorem c8_insert_unknown (store : Store) (pie : Pie)
    (h : lookupStore store pie.id = none) :
    lookupStore (upsert store pie) pie.id = some pie ∧
    needsEnrichment (upsert store pie) pie.id =
      (pie.created_at.isNone || pie.name.isNone) := by
  unfold upsert
  rw [h]
  refine ⟨lookup_insert_self _ _ _, ?_⟩
  unfold needsEnrichment
  rw [lookup_insert_self]

/-- Witness for `c8_insert_unknown` at a concrete enrichment-free raw pie. -/
theorem c8_insert_unknown_witness :
    lookupStore (upsert emptyStore rawPie1) rawPie1.id = some rawPie1 ∧
    needsEnrichment (upsert emptyStore rawPie1) rawPie1.id =
      (rawPie1.created_at.isNone || rawPie1.name.isNone) :=
  c8_insert_unknown emptyStore rawPie1 (by decide)

/-! ## C3 — startup load -/

/-- C3: a missing persistence file is indeed non-fatal and yields the empty
store, but a file whose contents serde_json rejects hits the `.unwrap()` on
main.rs line 609 and panics, aborting startup (`none`) instead of
proceeding with an empty store — the code contradicts the claim on the
corrupt-file half.  `noStoreDecode` models serde_json rejecting the text
`"not json"`. -/
theorem c3_corrupt_load_panics :
    (∀ decodeStore : String → Option Store,
        startupStore decodeStore none = some emptyStore) ∧
    startupStore noStoreDecode (some "not json") = none :=
  ⟨fun _ => rfl, rfl⟩

/-! ## C4 — annualized return -/

/-- C4: `calculate_annual_rate` returns 0 whenever the invested value is
non-positive, the creation date is non-positive, or `now` is not after the
creation date; on all other inputs it returns
`((currentValue / investedValue) ^ (secondsPerYear / (now − createdAt)) − 1) × 100`
with `secondsPerYear = 365 × 86400`; and doubling over exactly one year
yields exactly 100 (the claim's ≈ 100.0). -/
theorem c4_annual_rate :
    (∀ iv cv cd now : ℝ, iv ≤ 0 → calculate_annual_rate iv cv cd now = 0) ∧
    (∀ iv cv cd now : ℝ, cd ≤ 0 → calculate_annual_rate iv cv cd now = 0) ∧
    (∀ iv cv cd now : ℝ, now ≤ cd → calculate_annual_rate iv cv cd now = 0) ∧
    (∀ iv cv cd now : ℝ, 0 < iv → 0 < cd → cd < now →
      calculate_annual_rate iv cv cd now =
        ((cv / iv) ^ ((365 : ℝ) * 86400 / (now - cd)) - 1) * 100) ∧
    calculate_annual_rate 100 200 1000 (1000 + 31536000) = 100 := by
  refine ⟨?_, ?_, ?_, ?_, ?_⟩
  · intro iv cv cd now h
    unfold calculate_annual_rate
    rw [if_pos (Or.inl h)]
  · intro iv cv cd now h
    unfold calculate_annual_rate
    rw [if_pos (Or.inr h)]
  · intro iv cv cd now h
    unfold calculate_annual_rate
    split_ifs <;> rfl
  · intro iv cv cd now h1 h2 h3
    unfold calculate_annual_rate
    rw [if_neg (by push_neg; exact ⟨h1, h2⟩), if_neg (not_le.mpr h3)]
  · unfold calculate_annual_rate
    rw [if_neg (by norm_num), if_neg (by norm_num)]
    have e1 : (365 : ℝ) * 86400 / (1000 + 31536000 - 1000) = 1 := by norm_num
    have e2 : (200 : ℝ) / 100 = 2 := by norm_num
    rw [e1, e2, Real.rpow_one]
    norm_num

/-- Witness for `c4_annual_rate`: each guard discharged at a concrete input,
and the formula case at the doubling-over-one-year input. -/
theorem c4_annual_rate_witness :
    calculate_annual_rate 0 100 5 10 = 0 ∧
    calculate_annual_rate 100 200 (-1) 10 = 0 ∧
    calculate_annual_rate 100 200 1000 1000 = 0 ∧
    calculate_annual_rate 100 200 1000 (1000 + 31536000) =
      ((200 / 100 : ℝ) ^ ((365 : ℝ) * 86400 / (1000 + 31536000 - 1000)) - 1) * 100 :=
  ⟨c4_annual_rate.1 0 100 5 10 (by norm_num),
   c4_annual_rate.2.1 100 200 (-1) 10 (by norm_num),
   c4_annual_rate.2.2.1 100 200 1000 1000 (by norm_num),
   c4_annual_rate.2.2.2.1 100 200 1000 (1000 + 31536000)
     (by norm_num) (by norm_num) (by norm_num)⟩

/-! ## C5 — aggregate totals -/

/-- C5: `aggregateTotals` returns the sum of invested values, the sum of
current values, and a total-return percentage that is 0 when the invested
sum is 0 and `(totalCurrent − totalInvested)/totalInvested × 100` otherwise;
the empty sequence yields `(0, 0, 0)`, and the spec's two-record example
yields `(300, 330, 10)`. -/
theorem c5_aggregate_totals :
    (∀ records : List Pie,
      aggregateTotals records =
        ((records.map fun p => p.result.price_avg_invested_value).sum,
         (records.map fun p => p.result.price_avg_value).sum,
         if (records.map fun p => p.result.price_avg_invested_value).sum = 0
         then 0
         else ((records.map fun p => p.result.price_avg_value).sum -
                 (records.map fun p => p.result.price_avg_invested_value).sum) /
               (records.map fun p => p.result.price_avg_invested_value).sum
               * 100)) ∧
    aggregateTotals [] = (0, 0, 0) ∧
    aggregateTotals
        [{ pie1 with result := ⟨100, 150, 0, 0⟩ },
         { pie1 with result := ⟨200, 180, 0, 0⟩ }] = (300, 330, 10) := by
  refine ⟨?_, by simp [aggregateTotals], ?_⟩
  · intro records
    unfold aggregateTotals
    by_cases h : (records.map fun p => p.result.price_avg_invested_value).sum = 0 <;>
      simp [h]
  · norm_num [aggregateTotals]

/-! ## C6 — HTTP 429 is a soft condition -/

/-- C6: for every prior store state (and any tokenizer, oracle and body), a
listPies cycle that receives HTTP status 429 returns success and leaves the
store byte-for-byte unchanged. -/
theorem c6_rate_limit_soft (decode : String → Option Json)
    (oracle : ℕ → Option (ℚ × String)) (body : String) (store : Store) :
    fetch_pies decode oracle 429 body store = Except.ok store := by
  rfl

/-! ## C10 — business-error sniffing on a 200 body -/

/-- C10: every HTTP-200 listPies body containing the substring
`"BusinessException"` or `"error"` makes the fetch return an error without
any parse being attempted — the result is the same for every tokenizer
`decode`, including ones under which the body would be a valid pie list. -/
theorem c10_business_error (decode : String → Option Json)
    (oracle : ℕ → Option (ℚ × String)) (body : String) (store : Store)
    (h : looksLikeBusinessError body = true) :
    fetch_pies decode oracle 200 body store =
      Except.error ("API Business Error: " ++ body) := by
  unfold fetch_pies
  rw [if_neg (by decide), if_pos h]

/-- Witness for `c10_business_error`: a body whose only fault is containing
the letters `"error"` (e.g. inside a pie name), under a tokenizer that would
have read it as a valid (empty) pie list. -/
theorem c10_business_error_witness :
    fetch_pies decodeArrEmpty noOracle 200 "pie error list" emptyStore =
      Except.error ("API Business Error: " ++ "pie error list") :=
  c10_business_error decodeArrEmpty noOracle "pie error list" emptyStore
    (by decide)

/-! ## C9 — locking discipline of a refresh cycle -/

/-- C9 counterexample.  The claim says the store lock is never held across
network I/O.  In the cycle that fetches one not-yet-enriched pie into an
empty store, the trace is `[netList, lock, netMeta 1, unlock]`: the
`get_pie_details` call (main.rs line 722) is awaited while the mutex guard
taken on line 718 is still held, so the no-network-while-locked scan
fails. -/
theorem c9_lock_counterexample :
    netOutsideLock (cycleTrace noOracle emptyStore [rawPie1]) false = false := by
  decide

theorem stepTrace_lom (store : Store) (p : Pie) (T : List Ev) :
    listOutsideMetaInside (stepTrace store p ++ T) false =
      listOutsideMetaInside T false := by
  simp only [stepTrace]
  split <;> rfl

theorem loopTrace_lom (oracle : ℕ → Option (ℚ × String)) (pies : List Pie) :
    ∀ store : Store,
      listOutsideMetaInside (loopTrace oracle store pies) false = true := by
  induction pies with
  | nil => intro store; rfl
  | cons p rest ih =>
      intro store
      show listOutsideMetaInside
        (stepTrace store p ++ loopTrace oracle (reconcileStep oracle store p) rest)
        false = true
      rw [stepTrace_lom]
      exact ih _

/-- C9 (amended): in every refresh cycle the `listPies` call completes
outside any critical section, but every enrichment (`get_pie_details`) call
is awaited while the store's exclusive lock is held; the lock is taken per
pie for the in-memory merge plus the enrichment fetch, not only for
in-memory work. -/
theorem c9_lock_discipline (oracle : ℕ → Option (ℚ × String))
    (store : Store) (pies : List Pie) :
    listOutsideMetaInside (cycleTrace oracle store pies) false = true := by
  show listOutsideMetaInside (loopTrace oracle store pies) false = true
  exact loopTrace_lom oracle pies store

/-! ## C7 — the three accepted response shapes -/

theorem parsePiePairs_of_list (kvs : List (String × Json)) :
    ∀ ps : List Pie, parsePieList (kvs.map Prod.snd) = some ps →
      ∃ qs : List (String × Pie), parsePiePairs kvs = some qs ∧
        qs.map Prod.snd = ps ∧ qs.map Prod.fst = kvs.map Prod.fst := by
  induction kvs with
  | nil =>
      intro ps h
      refine ⟨[], rfl, ?_, rfl⟩
      simpa [parsePieList] using h.symm
  | cons kv rest ih =>
      intro ps h
      obtain ⟨k, j⟩ := kv
      simp only [List.map_cons, parsePieList, Option.pure_def, bind,
        Option.bind_eq_some, Option.some.injEq] at h
      obtain ⟨p, hp, ps', hps', hcons⟩ := h
      obtain ⟨qs, hqs, hsnd, hfst⟩ := ih ps' hps'
      refine ⟨(k, p) :: qs, ?_, ?_, ?_⟩
      · simp [parsePiePairs, hp, hqs, Option.pure_def]
      · rw [List.map_cons, hsnd]
        exact hcons
      · simp [hfst]

theorem hmInsert_of_newKey (acc : List (String × Pie)) (k : String) (p : Pie)
    (h : k ∉ acc.map Prod.fst) : hmInsert acc k p = acc ++ [(k, p)] := by
  induction acc with
  | nil => rfl
  | cons kv rest ih =>
      obtain ⟨k0, v⟩ := kv
      simp only [List.map_cons, List.mem_cons, not_or] at h
      simp only [hmInsert, if_neg (Ne.symm h.1), List.cons_append]
      rw [ih h.2]

theorem foldl_hmInsert_nodup (qs : List (String × Pie)) :
    ∀ acc : List (String × Pie),
      (∀ k ∈ qs.map Prod.fst, k ∉ acc.map Prod.fst) →
      (qs.map Prod.fst).Nodup →
      qs.foldl (fun a kp => hmInsert a kp.1 kp.2) acc = acc ++ qs := by
  induction qs with
  | nil => intro acc _ _; simp
  | cons kv rest ih =>
      intro acc hdisj hnd
      obtain ⟨k, p⟩ := kv
      simp only [List.map_cons, List.nodup_cons] at hnd
      have hk : k ∉ acc.map Prod.fst := hdisj k (by simp)
      show rest.foldl (fun a kp => hmInsert a kp.1 kp.2) (hmInsert acc k p) =
        acc ++ (k, p) :: rest
      rw [hmInsert_of_newKey acc k p hk]
      rw [ih (acc ++ [(k, p)]) ?_ hnd.2]
      · simp
      · intro k' hk'
        have h1 : k' ∉ List.map Prod.fst acc := hdisj k' (by simp [hk'])
        have h2 : k' ≠ k := fun hkk => hnd.1 (hkk ▸ hk')
        simp [h1, h2]

theorem buildMap_nodup (qs : List (String × Pie))
    (h : (qs.map Prod.fst).Nodup) : buildMap qs = qs := by
  unfold buildMap
  rw [foldl_hmInsert_nodup qs [] (by simp) h]
  simp

/-- C7: the `listPies` parse chain accepts exactly the three shapes of the
source's three attempts, tried in order (array first, then the flattened
map, then the direct id-keyed map — the latter two accept the same object
shape); and a pie collection encoded as an id-keyed object parses to a
record set set-equal to the parse of the equivalent array encoding. -/
theorem c7_parse_shapes :
    (∀ j : Json, (parsePies j).isSome =
        ((parsePieArray j).isSome || (parsePiesFlatten j).isSome ||
          (parseStringPieMap j).isSome)) ∧
    (∀ (j : Json) (v : List Pie),
      parsePieArray j = some v → parsePies j = some v) ∧
    (∀ (j : Json) (m : List (String × Pie)),
      parsePieArray j = none → parsePiesFlatten j = some m →
      parsePies j = some (intoValues m)) ∧
    (∀ (kvs : List (String × Json)) (ps : List Pie),
      parsePieList (kvs.map Prod.snd) = some ps →
      (kvs.map Prod.fst).Nodup →
      parsePies (Json.arr (kvs.map Prod.snd)) = some ps ∧
      ∃ m : List Pie, parsePies (Json.obj kvs) = some m ∧
        ∀ p : Pie, p ∈ m ↔ p ∈ ps) := by
  refine ⟨?_, ?_, ?_, ?_⟩
  · intro j
    cases h1 : parsePieArray j with
    | some v =>
        rw [show parsePies j = some v from by unfold parsePies; rw [h1]]
        simp
    | none =>
        cases h2 : parsePiesFlatten j with
        | some m =>
            rw [show parsePies j = some (intoValues m) from by
              unfold parsePies; rw [h1, h2]]
            simp
        | none =>
            cases h3 : parseStringPieMap j with
            | some m =>
                rw [show parsePies j = some (intoValues m) from by
                  unfold parsePies; rw [h1, h2, h3]]
                simp
            | none =>
                rw [show parsePies j = none from by
                  unfold parsePies; rw [h1, h2, h3]]
                simp
  · intro j v h
    unfold parsePies
    rw [h]
  · intro j m h1 h2
    unfold parsePies
    rw [h1, h2]
  · intro kvs ps hparse hnd
    constructor
    · show parsePies (Json.arr (kvs.map Prod.snd)) = some ps
      unfold parsePies
      have : parsePieArray (Json.arr (kvs.map Prod.snd)) = some ps := hparse
      rw [this]
    · obtain ⟨qs, hqs, hsnd, hfst⟩ := parsePiePairs_of_list kvs ps hparse
      have hqnd : (qs.map Prod.fst).Nodup := hfst ▸ hnd
      have hmap : parsePiesFlatten (Json.obj kvs) = some qs := by
        show (parsePiePairs kvs).map buildMap = some qs
        rw [hqs]
        show some (buildMap qs) = some qs
        rw [buildMap_nodup qs hqnd]
      refine ⟨ps, ?_, fun p => Iff.rfl⟩
      unfold parsePies
      rw [show parsePieArray (Json.obj kvs) = none from rfl, hmap]
      show some (intoValues qs) = some ps
      rw [show intoValues qs = qs.map Prod.snd from rfl, hsnd]

/-- Witness for `c7_parse_shapes`: one concrete pie encoded both ways. -/
theorem c7_parse_shapes_witness :
    parsePies (Json.arr [pieJson1]) = some [pie1] ∧
    ∃ m : List Pie, parsePies (Json.obj [("1", pieJson1)]) = some m ∧
      ∀ p : Pie, p ∈ m ↔ p ∈ [pie1] :=
  c7_parse_shapes.2.2.2 [("1", pieJson1)] [pie1] (by decide) (by decide)
